import Mathlib

/-!
# Verification of the go-tcp-chat core against its specification

Shallow embedding of the core data structures and operations of the
go-tcp-chat server (session manager, room objects, OTP service, protocol
formatter, command handler), translated from the Go source, together with
theorems settling the specification claims.

Go maps are modelled as association lists with first-match lookup;
`insertA` overwrites the first binding of the key (as Go map assignment
does) and `eraseA` removes all bindings of the key (as Go `delete` does).
`time.Time` values are modelled as integers (seconds); `t1.Before(t2)` is
`t1 < t2` and `t1.After(t2)` is `t1 > t2`, so 5 minutes is `300`.
-/

namespace GoTcpChat

/-! ## Association-list maps (model of Go maps) -/
def lookupA {α β : Type} [DecidableEq α] : List (α × β) → α → Option β
  | [], _ => none
  | (k', v) :: rest, k => if k' = k then some v else lookupA rest k

def insertA {α β : Type} [DecidableEq α] : List (α × β) → α → β → List (α × β)
  | [], k, v => [(k, v)]
  | (k', v') :: rest, k, v =>
      if k' = k then (k, v) :: rest else (k', v') :: insertA rest k v

def eraseA {α β : Type} [DecidableEq α] : List (α × β) → α → List (α × β)
  | [], _ => []
  | (k', v') :: rest, k =>
      if k' = k then eraseA rest k else (k', v') :: eraseA rest k

/-! ## OTP service (src/internal/auth/otp.go)

`OTPData` and `OTPService` mirror the Go structs.  `Attempts`,
`expirationMinutes` and `maxRetries` are Go `int`, modelled as `Int`.
The four error values produced by `Validate` are modelled as an inductive
type; `OTPError.message` records the exact strings the Go code passes to
`fmt.Errorf`. -/
structure OTPData where
  code : String
  email : String
  expiresAt : Int
  attempts : Int
  deriving Repr, DecidableEq

structure OTPService where
  otps : List (String × OTPData)
  expirationMinutes : Int
  maxRetries : Int
  deriving Repr, DecidableEq

inductive OTPError where
  | noOTPFound
  | otpExpired
  | maxAttemptsExceeded
  | invalidOTPCode
  deriving Repr, DecidableEq

/-- The exact error strings from `OTPService.Validate` in otp.go. -/
def OTPError.message : OTPError → String
  | .noOTPFound => "no OTP found for this email"
  | .otpExpired => "OTP has expired"
  | .maxAttemptsExceeded => "maximum verification attempts exceeded"
  | .invalidOTPCode => "invalid OTP code"

/-- `OTPService.Validate` from otp.go lines 64-96.  `now` is the value of
`time.Now()`, passed explicitly.  The Go code mutates the stored
`*OTPData` through the pointer when incrementing `Attempts`; here the
updated record is written back with `insertA`. -/
def OTPService.Validate (s : OTPService) (now : Int) (email code : String) :
    Option OTPError × OTPService :=
  match lookupA s.otps email with
  | none => (some .noOTPFound, s)
  | some otpData =>
      if now > otpData.expiresAt then
        (some .otpExpired, { s with otps := eraseA s.otps email })
      else if otpData.attempts ≥ s.maxRetries then
        (some .maxAttemptsExceeded, { s with otps := eraseA s.otps email })
      else
        let otpData' := { otpData with attempts := otpData.attempts + 1 }
        if otpData.code ≠ code then
          (some .invalidOTPCode, { s with otps := insertA s.otps email otpData' })
        else
          (none, { s with otps := eraseA s.otps email })

/-- Iterated validation: the service state after `n` successive calls of
`Validate now email code` (each call feeding its output state into the
next). -/
def validateIter (s : OTPService) (now : Int) (email code : String) : Nat → OTPService
  | 0 => s
  | n + 1 => ((validateIter s now email code n).Validate now email code).2

/-! ## Protocol messages (internal/protocol/message.go)

`Message.Format` is the wire-rendering function.  The Go `From` field is
named `fromUser` here because `from` is a Lean keyword.  The Go `switch`
has a `default:` arm rendering `<content>\n`, unreachable for the four
declared `MessageType` constants, which the inductive type captures
exactly. -/
inductive MessageType where
  | system
  | chat
  | error
  | command
  deriving Repr, DecidableEq

structure Message where
  type : MessageType
  fromUser : String
  content : String
  toUser : String
  deriving Repr, DecidableEq

def Message.Format (m : Message) : String :=
  match m.type with
  | .system => "*** " ++ m.content ++ " ***\n"
  | .chat =>
      if m.fromUser ≠ "" then "[" ++ m.fromUser ++ "]: " ++ m.content ++ "\n"
      else m.content ++ "\n"
  | .error => "ERROR: " ++ m.content ++ "\n"
  | .command => m.content ++ "\n"

def NewSystemMessage (content : String) : Message := ⟨.system, "", content, ""⟩

def NewChatMessage (fromUser content : String) : Message := ⟨.chat, fromUser, content, ""⟩

def NewPrivateMessage (fromUser toUser content : String) : Message := ⟨.chat, fromUser, content, toUser⟩

def NewErrorMessage (content : String) : Message := ⟨.error, "", content, ""⟩

def NewCommandMessage (content : String) : Message := ⟨.command, "", content, ""⟩

/-! ## Rooms (src/internal/room/room.go)

A `Room` holds a member map keyed by username and a `history` slice.
Sessions are identified by `SessionId` (modelling the Go `*Session`
pointers); the lines a room operation writes to sessions are returned
explicitly as a trace.  Go map iteration order is unspecified; the member
list order stands for one admissible order, and none of the properties
proved below depend on it.  `time.Now()` is passed explicitly as `now`;
`5 * time.Minute` is `300` (seconds). -/
abbrev SessionId := Nat

structure HistoryItem where
  content : String
  timestamp : Int
  deriving Repr, DecidableEq

inductive RoomKind where
  | publicRoom
  | privateRoom
  deriving Repr, DecidableEq

structure Room where
  name : String
  kind : RoomKind
  members : List (String × SessionId)
  history : List HistoryItem
  deriving Repr, DecidableEq

/-- `Room.cleanupHistory` from room.go lines 142-163, as a function of the
history slice: if the newest item is older than the cutoff the whole
buffer is dropped; else if the oldest item is older than the cutoff the
history is compacted to the items strictly after the cutoff; else nothing
changes. -/
def cleanupHistory (now : Int) (history : List HistoryItem) : List HistoryItem :=
  let cutoff := now - 300
  match history.getLast?, history.head? with
  | some last, some first =>
      if last.timestamp < cutoff then []
      else if first.timestamp < cutoff then
        history.filter (fun item => item.timestamp > cutoff)
      else history
  | _, _ => history

/-- `Room.addToHistory` from room.go lines 132-138: append the content
stamped with `now`, then clean up. -/
def Room.addToHistory (r : Room) (now : Int) (content : String) : Room :=
  { r with history := cleanupHistory now (r.history ++ [⟨content, now⟩]) }

/-- `Room.AddMember` from room.go lines 47-63.  Returns the updated room
and the lines sent to the joining session, in order.  The joining
session's username (its `GetUsername()`) is passed explicitly. -/
def Room.AddMember (r : Room) (now : Int) (sid : SessionId) (username : String) :
    Room × List String :=
  let history' := cleanupHistory now r.history
  let sent : List String :=
    if history'.length > 0 then
      ((NewSystemMessage "--- History (last 5 min) ---").Format ::
        history'.map (fun item => item.content)) ++
      [(NewSystemMessage "----------------------------").Format]
    else []
  ({ r with history := history', members := insertA r.members username sid }, sent)

/-- `Room.Broadcast` from room.go lines 100-113: format once, append to
history (with cleanup), send to every member whose username differs from
`excludeUsername`.  Returns the updated room and the (session, line)
sends. -/
def Room.Broadcast (r : Room) (now : Int) (message : Message) (excludeUsername : String) :
    Room × List (SessionId × String) :=
  let formattedMsg := message.Format
  (r.addToHistory now formattedMsg,
   (r.members.filter (fun p => p.1 ≠ excludeUsername)).map
     (fun p => (p.2, formattedMsg)))

/-- `Room.BroadcastToAll` from room.go lines 116-129: as `Broadcast` with
no exclusion. -/
def Room.BroadcastToAll (r : Room) (now : Int) (message : Message) :
    Room × List (SessionId × String) :=
  let formattedMsg := message.Format
  (r.addToHistory now formattedMsg,
   r.members.map (fun p => (p.2, formattedMsg)))

/-- History monotonically ordered by timestamp. -/
def historyOrdered (l : List HistoryItem) : Prop :=
  l.Pairwise (fun a b => a.timestamp ≤ b.timestamp)

/-! ## Session manager (internal/session: session.go, manager.go)

Sessions are heap objects in Go, reached through `*Session` pointers; here
they are identified by a `SessionId` allocated from `nextId`, with their
mutable fields held in a `sessions` store on the manager state.  Go `error`
returns are `Option String` (`none` = nil error); `AddSession`'s
`(*Session, error)` return is `Except String SessionId`.  Go `len` counts
bytes; for usernames matching `^[a-zA-Z0-9_]+$` (all ASCII) this equals
`String.length`, which is used here. -/
inductive SessionState where
  | unauthenticated
  | awaitingOTP
  | authenticated
  deriving Repr, DecidableEq

structure SessionData where
  username : String
  email : String
  ip : String
  state : SessionState
  deriving Repr, DecidableEq

structure Manager where
  sessionsByIP : List (String × SessionId)
  sessionsByUsername : List (String × SessionId)
  sessions : List (SessionId × SessionData)
  nextId : SessionId
  minUsernameLen : Nat
  maxUsernameLen : Nat
  deriving Repr, DecidableEq

def NewManager (minLen maxLen : Nat) : Manager := ⟨[], [], [], 0, minLen, maxLen⟩

/-- `Manager.AddSession` from manager.go lines 32-44: reject an IP that is
already indexed, otherwise create a fresh unauthenticated session
(`NewSession` from session.go) and index it by IP. -/
def Manager.AddSession (m : Manager) (ip : String) : Except String SessionId × Manager :=
  match lookupA m.sessionsByIP ip with
  | some _ => (.error ("IP address " ++ ip ++ " already has an active connection"), m)
  | none =>
      let sid := m.nextId
      (.ok sid,
       { m with sessionsByIP := insertA m.sessionsByIP ip sid,
                sessions := insertA m.sessions sid ⟨"", "", ip, .unauthenticated⟩,
                nextId := sid + 1 })

/-- `Manager.RemoveSession` from manager.go lines 47-58: drop the IP
binding and, if the session has a username, its username binding. -/
def Manager.RemoveSession (m : Manager) (sid : SessionId) : Manager :=
  match lookupA m.sessions sid with
  | none => m
  | some d =>
      let m1 := { m with sessionsByIP := eraseA m.sessionsByIP d.ip }
      if d.username ≠ "" then
        { m1 with sessionsByUsername := eraseA m1.sessionsByUsername d.username }
      else m1

def isUsernameChar (c : Char) : Bool :=
  ('a' ≤ c && c ≤ 'z') || ('A' ≤ c && c ≤ 'Z') || ('0' ≤ c && c ≤ '9') || c = '_'

/-- The regexp `^[a-zA-Z0-9_]+$`: nonempty and all characters in the
class. -/
def usernamePatternMatch (s : String) : Bool :=
  !s.isEmpty && s.toList.all isUsernameChar

/-- `Manager.ValidateUsername` from manager.go lines 61-72, as a function
of the configured bounds. -/
def validateUsernameFn (minLen maxLen : Nat) (username : String) : Option String :=
  if username.length < minLen then
    some ("username must be at least " ++ toString minLen ++ " characters")
  else if username.length > maxLen then
    some ("username must be at most " ++ toString maxLen ++ " characters")
  else if !(usernamePatternMatch username) then
    some "username can only contain letters, numbers, and underscores"
  else none

def Manager.ValidateUsername (m : Manager) (username : String) : Option String :=
  validateUsernameFn m.minUsernameLen m.maxUsernameLen username

/-- `session.SetUsername` on the stored session object. -/
def updateUsername (sessions : List (SessionId × SessionData)) (sid : SessionId)
    (username : String) : List (SessionId × SessionData) :=
  match lookupA sessions sid with
  | none => sessions
  | some d => insertA sessions sid { d with username := username }

/-- `Manager.RegisterUsername` from manager.go lines 75-88: fail when the
name is already indexed, otherwise index it and set the session's
username.  Note: it performs no `ValidateUsername` check itself. -/
def Manager.RegisterUsername (m : Manager) (sid : SessionId) (username : String) :
    Option String × Manager :=
  match lookupA m.sessionsByUsername username with
  | some _ => (some ("username '" ++ username ++ "' is already taken"), m)
  | none =>
      (none,
       { m with sessionsByUsername := insertA m.sessionsByUsername username sid,
                sessions := updateUsername m.sessions sid username })

/-! Interleavings of manager operations are sequences of `ManagerOp`
executed from a fresh manager. -/
inductive ManagerOp where
  | addSession (ip : String)
  | removeSession (sid : SessionId)
  | registerUsername (sid : SessionId) (username : String)
  deriving Repr, DecidableEq

def managerStep (m : Manager) : ManagerOp → Manager
  | .addSession ip => (m.AddSession ip).2
  | .removeSession sid => m.RemoveSession sid
  | .registerUsername sid u => (m.RegisterUsername sid u).2

def runManager (minLen maxLen : Nat) (ops : List ManagerOp) : Manager :=
  ops.foldl managerStep (NewManager minLen maxLen)

/-- `sessionsByUsername` is an injection: no two distinct username keys
resolve to the same session. -/
def usernameInjective (l : List (String × SessionId)) : Prop :=
  ∀ u1 u2 sid, lookupA l u1 = some sid → lookupA l u2 = some sid → u1 = u2

/-- `sid` is not in the image of the username index. -/
def notInImage (l : List (String × SessionId)) (sid : SessionId) : Bool :=
  l.all (fun p => lookupA l p.1 ≠ some sid)

/-- A trace is good when `RegisterUsername` is only invoked on sessions
not currently holding a registered username. -/
def goodTrace (m : Manager) : List ManagerOp → Bool
  | [] => true
  | op :: ops =>
      (match op with
       | .registerUsername sid _ => notInImage m.sessionsByUsername sid
       | _ => true) && goodTrace (managerStep m op) ops

/-- Whether every `registerUsername` operation of a trace carries a name
accepted by `validateUsernameFn` for the configured bounds. -/
def registersValidated (minLen maxLen : Nat) : List ManagerOp → Bool
  | [] => true
  | .registerUsername _ u :: ops =>
      decide (validateUsernameFn minLen maxLen u = none) &&
        registersValidated minLen maxLen ops
  | .addSession _ :: ops => registersValidated minLen maxLen ops
  | .removeSession _ :: ops => registersValidated minLen maxLen ops

/-! ## Command handler (internal/message: handler.go)

`HandleCommand` splits the line into whitespace-separated fields
(`strings.Fields`), lowercases the first token (`strings.ToLower`) and
dispatches on it.  `strings.Fields` and `strings.ToLower` are
Unicode-aware in Go; they are modelled here on the ASCII range, where
`unicode.IsSpace` accepts exactly space, `\t`, `\n`, `\v`, `\f`, `\r`
and `ToLower` maps `A`-`Z` to `a`-`z`.  The dispatch target is recorded
as a `Dispatch` value; for the unknown-verb branch it carries the exact
line sent to the session. -/
def goIsSpace (c : Char) : Bool :=
  c = ' ' || c = '\t' || c = '\n' || c = Char.ofNat 11 || c = Char.ofNat 12 || c = '\r'

def fieldsAux (acc : List Char) : List Char → List String
  | [] => if acc.isEmpty then [] else [String.mk acc.reverse]
  | c :: cs =>
      if goIsSpace c then
        if acc.isEmpty then fieldsAux [] cs
        else String.mk acc.reverse :: fieldsAux [] cs
      else fieldsAux (c :: acc) cs

/-- `strings.Fields` (ASCII model): split around runs of whitespace. -/
def goFields (s : String) : List String := fieldsAux [] s.data

def goToLowerChar (c : Char) : Char :=
  if 'A' ≤ c && c ≤ 'Z' then Char.ofNat (c.toNat + 32) else c

/-- `strings.ToLower` (ASCII model). -/
def goToLower (s : String) : String := String.mk (s.data.map goToLowerChar)

inductive Dispatch where
  | noop
  | help
  | users
  | rooms
  | join (parts : List String)
  | leave
  | msg (parts : List String)
  | quit
  | unknown (reply : String)
  deriving Repr, DecidableEq

/-- `Handler.HandleCommand` from handler.go lines 27-53. -/
def HandleCommand (command : String) : Dispatch :=
  match goFields command with
  | [] => .noop
  | w :: rest =>
      let cmd := goToLower w
      if cmd = "/help" then .help
      else if cmd = "/users" then .users
      else if cmd = "/rooms" then .rooms
      else if cmd = "/join" then .join (w :: rest)
      else if cmd = "/leave" then .leave
      else if cmd = "/msg" then .msg (w :: rest)
      else if cmd = "/quit" then .quit
      else .unknown ((NewErrorMessage ("Unknown command: " ++ cmd ++
        ". Type /help for available commands.")).Format)

theorem lookupA_insertA {α β : Type} [DecidableEq α] (l : List (α × β)) (k u : α) (v : β) :
    lookupA (insertA l k v) u = if k = u then some v else lookupA l u := by
  induction l with
  | nil => simp [insertA, lookupA]
  | cons hd tl ih =>
      obtain ⟨k', v'⟩ := hd
      by_cases hk : k' = k
      · subst hk
        by_cases hu : k' = u <;> simp [insertA, lookupA, hu]
      · by_cases hu : k' = u
        · subst hu
          have : ¬ k = k' := fun h => hk h.symm
          simp [insertA, lookupA, hk, this]
        · simp [insertA, lookupA, hk, hu, ih]

theorem lookupA_eraseA {α β : Type} [DecidableEq α] (l : List (α × β)) (k u : α) :
    lookupA (eraseA l k) u = if k = u then none else lookupA l u := by
  induction l with
  | nil => simp [eraseA, lookupA]
  | cons hd tl ih =>
      obtain ⟨k', v'⟩ := hd
      by_cases hk : k' = k
      · subst hk
        by_cases hu : k' = u
        · subst hu; simp [eraseA, ih]
        · simp [eraseA, lookupA, hu, ih]
      · by_cases hu : k' = u
        · subst hu
          have hne : ¬ k = k' := fun h => hk h.symm
          simp [eraseA, lookupA, hk, hne]
        · simp [eraseA, lookupA, hk, hu, ih]

theorem lookupA_mem {α β : Type} [DecidableEq α] (l : List (α × β)) (k : α) (v : β)
    (h : lookupA l k = some v) : (k, v) ∈ l := by
  induction l with
  | nil => simp [lookupA] at h
  | cons hd tl ih =>
      obtain ⟨k', v'⟩ := hd
      by_cases hk : k' = k
      · subst hk
        simp [lookupA] at h
        subst h
        exact List.mem_cons_self _ _
      · simp [lookupA, hk] at h
        exact List.mem_cons_of_mem _ (ih h)

/-- C1: `OTPService.Validate` follows the spec's decision tree in order:
missing entry fails with the no-OTP-found error leaving the service
unchanged; an expired entry is deleted and fails with the expired error;
an entry whose attempts have reached `maxRetries` is deleted and fails
with the maximum-attempts error; otherwise attempts is incremented and a
code mismatch fails with the invalid-code error while retaining the
(updated) entry; matching codes delete the entry and return ok. -/
theorem validate_decision_tree (s : OTPService) (now : Int) (email code : String) :
    (lookupA s.otps email = none →
      s.Validate now email code = (some .noOTPFound, s)) ∧
    (∀ d : OTPData, lookupA s.otps email = some d →
      (now > d.expiresAt →
        s.Validate now email code =
          (some .otpExpired, { s with otps := eraseA s.otps email })) ∧
      (¬ now > d.expiresAt → d.attempts ≥ s.maxRetries →
        s.Validate now email code =
          (some .maxAttemptsExceeded, { s with otps := eraseA s.otps email })) ∧
      (¬ now > d.expiresAt → ¬ d.attempts ≥ s.maxRetries → d.code ≠ code →
        s.Validate now email code =
          (some .invalidOTPCode,
           { s with otps := insertA s.otps email { d with attempts := d.attempts + 1 } }) ∧
        lookupA (s.Validate now email code).2.otps email =
          some { d with attempts := d.attempts + 1 }) ∧
      (¬ now > d.expiresAt → ¬ d.attempts ≥ s.maxRetries → d.code = code →
        s.Validate now email code = (none, { s with otps := eraseA s.otps email }) ∧
        lookupA (s.Validate now email code).2.otps email = none)) := by
  constructor
  · intro h
    simp [OTPService.Validate, h]
  · intro d hd
    refine ⟨?_, ?_, ?_, ?_⟩
    · intro hexp
      simp [OTPService.Validate, hd, hexp]
    · intro hexp hmax
      simp [OTPService.Validate, hd, hexp, hmax]
    · intro hexp hmax hcode
      have hval : s.Validate now email code =
          (some .invalidOTPCode,
           { s with otps := insertA s.otps email { d with attempts := d.attempts + 1 } }) := by
        simp [OTPService.Validate, hd, hexp, hmax, hcode]
      refine ⟨hval, ?_⟩
      rw [hval]
      simp [lookupA_insertA]
    · intro hexp hmax hcode
      have hval : s.Validate now email code =
          (none, { s with otps := eraseA s.otps email }) := by
        simp [OTPService.Validate, hd, hexp, hmax, hcode]
      refine ⟨hval, ?_⟩
      rw [hval]
      simp [lookupA_eraseA]

/-- Witness for C1: on a concrete service the no-entry branch and the
wrong-code branch behave as `validate_decision_tree` states. -/
theorem validate_decision_tree_witness :
    (OTPService.Validate ⟨[], 5, 3⟩ 0 "a@b.c" "123456" =
      (some .noOTPFound, ⟨[], 5, 3⟩)) ∧
    (OTPService.Validate ⟨[("a@b.c", ⟨"123456", "a@b.c", 100, 0⟩)], 5, 3⟩ 50 "a@b.c" "000000" =
      (some .invalidOTPCode, ⟨[("a@b.c", ⟨"123456", "a@b.c", 100, 1⟩)], 5, 3⟩)) := by
  constructor
  · exact (validate_decision_tree ⟨[], 5, 3⟩ 0 "a@b.c" "123456").1 (by decide)
  · exact ((validate_decision_tree ⟨[("a@b.c", ⟨"123456", "a@b.c", 100, 0⟩)], 5, 3⟩
      50 "a@b.c" "000000").2 ⟨"123456", "a@b.c", 100, 0⟩ (by decide)).2.2.1
      (by decide) (by decide) (by decide) |>.1

theorem Validate_maxRetries (s : OTPService) (now : Int) (email code : String) :
    (s.Validate now email code).2.maxRetries = s.maxRetries := by
  unfold OTPService.Validate
  cases lookupA s.otps email
  · rfl
  · simp only
    split_ifs <;> rfl

theorem validateIter_maxRetries (s : OTPService) (now : Int) (email code : String) :
    ∀ n : Nat, (validateIter s now email code n).maxRetries = s.maxRetries := by
  intro n
  induction n with
  | zero => rfl
  | succ n ih =>
      show ((validateIter s now email code n).Validate now email code).2.maxRetries = _
      rw [Validate_maxRetries, ih]

theorem validateIter_wrong_code (s : OTPService) (now : Int) (email code : String)
    (d : OTPData) (hd : lookupA s.otps email = some d) (h0 : d.attempts = 0)
    (hc : d.code ≠ code) (hexp : ¬ now > d.expiresAt) (hm : 0 ≤ s.maxRetries) :
    ∀ n : Nat, n ≤ s.maxRetries.toNat →
      lookupA (validateIter s now email code n).otps email =
        some { d with attempts := (n : Int) } := by
  intro n
  induction n with
  | zero =>
      intro _
      simpa [validateIter, ← h0] using hd
  | succ n ih =>
      intro hn
      have hn' : n ≤ s.maxRetries.toNat := Nat.le_of_succ_le hn
      have hlt : (n : Int) < s.maxRetries := by
        have h1 : n < s.maxRetries.toNat := Nat.lt_of_succ_le hn
        have h2 : (n : Int) < (s.maxRetries.toNat : Int) := by exact_mod_cast h1
        rwa [Int.toNat_of_nonneg hm] at h2
      have hdn := ih hn'
      show lookupA ((validateIter s now email code n).Validate now email code).2.otps email = _
      simp only [OTPService.Validate, hdn, hexp, if_false, validateIter_maxRetries,
        not_le.mpr hlt, hc, ne_eq, not_false_eq_true, if_true, ite_true, ite_false]
      simp [lookupA_insertA]

/-- C7: for an email holding a live OTP entry with `attempts = 0`, each of
the first `maxRetries` wrong-code `Validate` calls fails with the
invalid-code error (incrementing `attempts`), the next call fails with the
maximum-attempts error regardless of the supplied code and deletes the
entry, and after that deletion a further `Validate` fails with the
no-OTP-found error until a new `Generate`. -/
theorem otp_attempt_cap (s : OTPService) (now : Int) (email code c2 c3 : String)
    (d : OTPData) (hd : lookupA s.otps email = some d) (h0 : d.attempts = 0)
    (hc : d.code ≠ code) (hexp : ¬ now > d.expiresAt) (hm : 0 ≤ s.maxRetries) :
    (∀ n : Nat, n < s.maxRetries.toNat →
      ((validateIter s now email code n).Validate now email code).1 =
        some .invalidOTPCode) ∧
    ((validateIter s now email code s.maxRetries.toNat).Validate now email c2).1 =
      some .maxAttemptsExceeded ∧
    lookupA ((validateIter s now email code s.maxRetries.toNat).Validate
        now email c2).2.otps email = none ∧
    (((validateIter s now email code s.maxRetries.toNat).Validate
        now email c2).2.Validate now email c3).1 = some .noOTPFound := by
  have hiter := validateIter_wrong_code s now email code d hd h0 hc hexp hm
  have hdt : lookupA (validateIter s now email code s.maxRetries.toNat).otps email =
      some { d with attempts := (s.maxRetries.toNat : Int) } :=
    hiter s.maxRetries.toNat (le_refl _)
  have hcast : ((s.maxRetries.toNat : Nat) : Int) = s.maxRetries :=
    Int.toNat_of_nonneg hm
  have hv2 : (validateIter s now email code s.maxRetries.toNat).Validate now email c2 =
      (some .maxAttemptsExceeded,
       { validateIter s now email code s.maxRetries.toNat with
         otps := eraseA (validateIter s now email code s.maxRetries.toNat).otps email }) := by
    simp only [OTPService.Validate, hdt, validateIter_maxRetries, hcast]
    simp [hexp]
  refine ⟨?_, ?_, ?_, ?_⟩
  · intro n hn
    have hdn := hiter n (Nat.le_of_lt hn)
    have hlt : (n : Int) < s.maxRetries := by
      have h2 : (n : Int) < (s.maxRetries.toNat : Int) := by exact_mod_cast hn
      rwa [Int.toNat_of_nonneg hm] at h2
    simp only [OTPService.Validate, hdn, hexp, validateIter_maxRetries,
      not_le.mpr hlt, hc, ne_eq, not_false_eq_true, ite_true, ite_false,
      if_false, if_true]
  · rw [hv2]
  · rw [hv2]
    simp [lookupA_eraseA]
  · rw [hv2]
    have hnone : lookupA (eraseA (validateIter s now email code
        s.maxRetries.toNat).otps email) email = none := by
      simp [lookupA_eraseA]
    simp [OTPService.Validate, hnone]

/-- Witness for C7 at a concrete service with `maxRetries = 2`. -/
theorem otp_attempt_cap_witness :
    (∀ n : Nat, n < (2 : Int).toNat →
      ((validateIter ⟨[("e@x.io", ⟨"111111", "e@x.io", 100, 0⟩)], 5, 2⟩
          0 "e@x.io" "000000" n).Validate 0 "e@x.io" "000000").1 =
        some .invalidOTPCode) ∧
    ((validateIter ⟨[("e@x.io", ⟨"111111", "e@x.io", 100, 0⟩)], 5, 2⟩
        0 "e@x.io" "000000" (2 : Int).toNat).Validate 0 "e@x.io" "222222").1 =
      some .maxAttemptsExceeded ∧
    lookupA ((validateIter ⟨[("e@x.io", ⟨"111111", "e@x.io", 100, 0⟩)], 5, 2⟩
        0 "e@x.io" "000000" (2 : Int).toNat).Validate 0 "e@x.io" "222222").2.otps
      "e@x.io" = none ∧
    (((validateIter ⟨[("e@x.io", ⟨"111111", "e@x.io", 100, 0⟩)], 5, 2⟩
        0 "e@x.io" "000000" (2 : Int).toNat).Validate 0 "e@x.io" "222222").2.Validate
      0 "e@x.io" "333333").1 = some .noOTPFound :=
  otp_attempt_cap ⟨[("e@x.io", ⟨"111111", "e@x.io", 100, 0⟩)], 5, 2⟩
    0 "e@x.io" "000000" "222222" "333333" ⟨"111111", "e@x.io", 100, 0⟩
    (by decide) (by decide) (by decide) (by decide) (by decide)

/-- C8: `Message.Format` renders each message kind bit-exactly to one wire
line ending in `\n`, passing content through verbatim: System as
`*** <content> ***\n`, Chat with non-empty `From` as `[<from>]: <content>\n`,
Chat with empty `From` as `<content>\n`, Error as `ERROR: <content>\n`,
Command as `<content>\n`; and, being a pure function, identical inputs
yield identical output bytes. -/
theorem message_format_cases (m m' : Message) :
    (m.type = .system → m.Format = "*** " ++ m.content ++ " ***\n") ∧
    (m.type = .chat → m.fromUser ≠ "" →
      m.Format = "[" ++ m.fromUser ++ "]: " ++ m.content ++ "\n") ∧
    (m.type = .chat → m.fromUser = "" → m.Format = m.content ++ "\n") ∧
    (m.type = .error → m.Format = "ERROR: " ++ m.content ++ "\n") ∧
    (m.type = .command → m.Format = m.content ++ "\n") ∧
    (∃ s : String, m.Format = s ++ "\n") ∧
    (m = m' → m.Format = m'.Format) := by
  refine ⟨?_, ?_, ?_, ?_, ?_, ?_, ?_⟩
  · intro h; simp [Message.Format, h]
  · intro h hf; simp [Message.Format, h, hf]
  · intro h hf; simp [Message.Format, h, hf]
  · intro h; simp [Message.Format, h]
  · intro h; simp [Message.Format, h]
  · cases h : m.type
    · exact ⟨"*** " ++ m.content ++ " ***", by simp [Message.Format, h, String.append_assoc]⟩
    · by_cases hf : m.fromUser = ""
      · exact ⟨m.content, by simp [Message.Format, h, hf]⟩
      · exact ⟨"[" ++ m.fromUser ++ "]: " ++ m.content,
          by simp [Message.Format, h, hf, String.append_assoc]⟩
    · exact ⟨"ERROR: " ++ m.content, by simp [Message.Format, h, String.append_assoc]⟩
    · exact ⟨m.content, by simp [Message.Format, h]⟩
  · intro h; rw [h]

/-- Witness for C8 at concrete messages of each kind. -/
theorem message_format_cases_witness :
    (Message.Format ⟨.system, "", "hi", ""⟩ = "*** hi ***\n") ∧
    (Message.Format ⟨.chat, "bob", "hi", ""⟩ = "[bob]: hi\n") ∧
    (Message.Format ⟨.chat, "", "hi", ""⟩ = "hi\n") ∧
    (Message.Format ⟨.error, "", "bad", ""⟩ = "ERROR: bad\n") ∧
    (Message.Format ⟨.command, "", "ok", ""⟩ = "ok\n") :=
  ⟨(message_format_cases ⟨.system, "", "hi", ""⟩ ⟨.system, "", "hi", ""⟩).1 rfl,
   (message_format_cases ⟨.chat, "bob", "hi", ""⟩ ⟨.chat, "bob", "hi", ""⟩).2.1 rfl (by decide),
   (message_format_cases ⟨.chat, "", "hi", ""⟩ ⟨.chat, "", "hi", ""⟩).2.2.1 rfl rfl,
   (message_format_cases ⟨.error, "", "bad", ""⟩ ⟨.error, "", "bad", ""⟩).2.2.2.1 rfl,
   (message_format_cases ⟨.command, "", "ok", ""⟩ ⟨.command, "", "ok", ""⟩).2.2.2.2.1 rfl⟩

theorem cleanupHistory_bound (now : Int) (l : List HistoryItem)
    (hs : historyOrdered l) :
    ∀ item ∈ cleanupHistory now l, now - 300 ≤ item.timestamp := by
  cases l with
  | nil =>
      intro item hmem
      simp [cleanupHistory] at hmem
  | cons first rest =>
      intro item hmem
      obtain ⟨hfr, _⟩ := List.pairwise_cons.mp hs
      obtain ⟨last, hg⟩ : ∃ last, (first :: rest).getLast? = some last := by
        cases hgl : (first :: rest).getLast? with
        | none => simp [List.getLast?_eq_none_iff] at hgl
        | some y => exact ⟨y, rfl⟩
      simp only [cleanupHistory, hg, List.head?_cons] at hmem
      split_ifs at hmem with h1 h2
      · simp at hmem
      · have := (List.mem_filter.mp hmem).2
        have : item.timestamp > now - 300 := by simpa using this
        omega
      · push_neg at h2
        rcases List.mem_cons.mp hmem with heq | hrest
        · subst heq; omega
        · have := hfr item hrest
          omega

/-- Appending an item stamped `now` to a history whose items are all
within the 5-minute window leaves nothing for the cleanup to prune. -/
theorem cleanupHistory_append_fresh (now : Int) (l : List HistoryItem) (c : String)
    (hfresh : ∀ item ∈ l, now - 300 ≤ item.timestamp) :
    cleanupHistory now (l ++ [⟨c, now⟩]) = l ++ [⟨c, now⟩] := by
  have hg : (l ++ [(⟨c, now⟩ : HistoryItem)]).getLast? = some ⟨c, now⟩ := by
    simp [List.getLast?_concat]
  cases l with
  | nil =>
      simp only [List.nil_append] at hg ⊢
      simp only [cleanupHistory, hg, List.head?_cons]
      norm_num
  | cons y ys =>
      have hy : now - 300 ≤ y.timestamp := hfresh y (List.mem_cons_self _ _)
      simp only [List.cons_append] at hg ⊢
      simp only [cleanupHistory, hg, List.head?_cons]
      have h1 : ¬ (now < now - 300) := by omega
      have h2 : ¬ (y.timestamp < now - 300) := by omega
      simp [h1, h2]

/-- C4: immediately after any mutation of a room's history (`Broadcast`,
`BroadcastToAll`, or the lazy prune in `AddMember`), every remaining item
has a timestamp at least `now - 300` (no older than 5 minutes), given
that the history was monotonically ordered beforehand and contained no
item stamped after `now`. -/
theorem history_bound_after_mutation (r : Room) (now : Int) (message : Message)
    (excludeUsername username : String) (sid : SessionId)
    (hs : historyOrdered r.history)
    (hpast : ∀ item ∈ r.history, item.timestamp ≤ now) :
    (∀ item ∈ (r.Broadcast now message excludeUsername).1.history,
       now - 300 ≤ item.timestamp) ∧
    (∀ item ∈ (r.BroadcastToAll now message).1.history,
       now - 300 ≤ item.timestamp) ∧
    (∀ item ∈ (r.AddMember now sid username).1.history,
       now - 300 ≤ item.timestamp) := by
  have hs' : historyOrdered (r.history ++ [⟨message.Format, now⟩]) := by
    rw [historyOrdered, List.pairwise_append]
    refine ⟨hs, List.pairwise_singleton _ _, ?_⟩
    intro a ha b hb
    have hb' : b = ⟨message.Format, now⟩ := by simpa using hb
    subst hb'
    exact hpast a ha
  refine ⟨?_, ?_, ?_⟩
  · exact cleanupHistory_bound now _ hs'
  · exact cleanupHistory_bound now _ hs'
  · exact cleanupHistory_bound now _ hs

/-- Witness for C4 on a concrete room: one fresh and one stale item. -/
theorem history_bound_after_mutation_witness :
    (∀ item ∈ ((⟨"#general", .publicRoom, [], [⟨"a\n", 10⟩, ⟨"b\n", 350⟩]⟩ : Room).Broadcast
        400 ⟨.chat, "u", "hi", ""⟩ "").1.history, (400 : Int) - 300 ≤ item.timestamp) ∧
    (∀ item ∈ ((⟨"#general", .publicRoom, [], [⟨"a\n", 10⟩, ⟨"b\n", 350⟩]⟩ : Room).AddMember
        400 0 "u").1.history, (400 : Int) - 300 ≤ item.timestamp) := by
  have h := history_bound_after_mutation ⟨"#general", .publicRoom, [], [⟨"a\n", 10⟩, ⟨"b\n", 350⟩]⟩
    400 ⟨.chat, "u", "hi", ""⟩ "" "u" 0 (by unfold historyOrdered; decide) (by decide)
  exact ⟨h.1, h.2.2⟩

/-- C5: `AddMember` first prunes the history, then sends exactly the
pruned history to the joining session — bracketed by the
`*** --- History (last 5 min) --- ***` and `*** ---------------------------- ***`
system lines iff at least one item remains, and nothing at all when the
pruned history is empty — while the membership insertion only appears in
the resulting state (the replay is computed entirely from the pre-join
state, so it happens strictly before the session is inserted into
`members`). -/
theorem addMember_replay (r : Room) (now : Int) (sid : SessionId) (username : String) :
    ((r.AddMember now sid username).1.history = cleanupHistory now r.history) ∧
    ((r.AddMember now sid username).1.members = insertA r.members username sid) ∧
    (cleanupHistory now r.history ≠ [] →
      (r.AddMember now sid username).2 =
        "*** --- History (last 5 min) --- ***\n" ::
          ((cleanupHistory now r.history).map (fun item => item.content) ++
            ["*** ---------------------------- ***\n"])) ∧
    (cleanupHistory now r.history = [] → (r.AddMember now sid username).2 = []) := by
  refine ⟨rfl, rfl, ?_, ?_⟩
  · intro hne
    have hlen : (cleanupHistory now r.history).length > 0 := List.length_pos.mpr hne
    simp only [Room.AddMember, hlen, if_pos, NewSystemMessage, Message.Format]
    rfl
  · intro heq
    simp [Room.AddMember, heq]

/-- Witness for C5: a room with one live history item yields the
bracketed replay; a room with empty history yields no lines. -/
theorem addMember_replay_witness :
    (((⟨"#r", .privateRoom, [], [⟨"[u]: hi\n", 350⟩]⟩ : Room).AddMember 400 7 "bob").2 =
      ["*** --- History (last 5 min) --- ***\n", "[u]: hi\n",
       "*** ---------------------------- ***\n"]) ∧
    (((⟨"#r", .privateRoom, [], []⟩ : Room).AddMember 400 7 "bob").2 = []) := by
  constructor
  · have h := (addMember_replay ⟨"#r", .privateRoom, [], [⟨"[u]: hi\n", 350⟩]⟩ 400 7 "bob").2.2.1
      (by decide)
    rw [h]
    rfl
  · exact (addMember_replay ⟨"#r", .privateRoom, [], []⟩ 400 7 "bob").2.2.2 (by decide)

/-- C9 counterexample: broadcasting to a room with no members whose only
history item is stale does append the new message, but the simultaneous
prune drops the stale item, so the history does not grow by exactly one
item (length stays 1, not 2). -/
theorem broadcast_grows_by_one_counterexample :
    (((⟨"#general", .publicRoom, [], [⟨"old\n", 0⟩]⟩ : Room).Broadcast 1000
        ⟨.chat, "u", "hi", ""⟩ "").1.history.length ≠
      ([⟨"old\n", (0 : Int)⟩] : List HistoryItem).length + 1) ∧
    (((⟨"#general", .publicRoom, [], [⟨"old\n", 0⟩]⟩ : Room).Broadcast 1000
        ⟨.chat, "u", "hi", ""⟩ "").1.history =
      [⟨"[u]: hi\n", 1000⟩]) := by
  constructor
  · decide
  · rfl

/-- C9 amended: `Broadcast` and `BroadcastToAll` append the formatted
message to the room's history unconditionally, independent of membership
and delivery — a room with no members, or a `Broadcast` whose only member
is the excluded username, still records the message, which a later joiner
within the window replays although no member received it.  Provided no
existing history item is staler than the 5-minute window, the history
grows by exactly one item; stale items are simultaneously pruned by the
append (as the counterexample shows), so in general the new message is
appended but the length need not grow. -/
theorem broadcast_appends_unconditionally (r : Room) (now : Int) (message : Message)
    (excludeUsername : String)
    (hfresh : ∀ item ∈ r.history, now - 300 ≤ item.timestamp) :
    ((r.Broadcast now message excludeUsername).1.history =
      r.history ++ [⟨message.Format, now⟩]) ∧
    ((r.BroadcastToAll now message).1.history =
      r.history ++ [⟨message.Format, now⟩]) ∧
    ((r.Broadcast now message excludeUsername).1.history.length =
      r.history.length + 1) ∧
    ((r.BroadcastToAll now message).1.history.length = r.history.length + 1) ∧
    (∀ ms : List (String × SessionId),
      (({ r with members := ms } : Room).Broadcast now message
          excludeUsername).1.history =
        (r.Broadcast now message excludeUsername).1.history) ∧
    ((r.Broadcast now message excludeUsername).2 =
      (r.members.filter (fun p => p.1 ≠ excludeUsername)).map
        (fun p => (p.2, message.Format))) := by
  have key : cleanupHistory now (r.history ++ [⟨message.Format, now⟩]) =
      r.history ++ [⟨message.Format, now⟩] :=
    cleanupHistory_append_fresh now r.history message.Format hfresh
  refine ⟨key, key, ?_, ?_, ?_, rfl⟩
  · show (cleanupHistory now (r.history ++ [⟨message.Format, now⟩])).length = _
    rw [key]
    simp
  · show (cleanupHistory now (r.history ++ [⟨message.Format, now⟩])).length = _
    rw [key]
    simp
  · intro ms
    rfl

/-- Witness for C9 (amended) on a memberless room with fresh history. -/
theorem broadcast_appends_unconditionally_witness :
    ((⟨"#general", .publicRoom, [], [⟨"a\n", 900⟩]⟩ : Room).Broadcast 1000
        ⟨.chat, "u", "hi", ""⟩ "").1.history =
      [⟨"a\n", 900⟩, ⟨"[u]: hi\n", 1000⟩] := by
  have h := (broadcast_appends_unconditionally ⟨"#general", .publicRoom, [], [⟨"a\n", 900⟩]⟩
    1000 ⟨.chat, "u", "hi", ""⟩ "" (by decide)).1
  rw [h]
  rfl

theorem notInImage_spec (l : List (String × SessionId)) (sid : SessionId)
    (h : notInImage l sid = true) : ∀ u, lookupA l u ≠ some sid := by
  intro u hu
  have hmem := lookupA_mem l u sid hu
  have hall := List.all_eq_true.mp h (u, sid) hmem
  rw [hu] at hall
  simp at hall

theorem AddSession_byUsername (m : Manager) (ip : String) :
    (m.AddSession ip).2.sessionsByUsername = m.sessionsByUsername := by
  unfold Manager.AddSession
  cases lookupA m.sessionsByIP ip
  · rfl
  · rfl

theorem usernameInjective_eraseA (l : List (String × SessionId)) (k : String)
    (h : usernameInjective l) : usernameInjective (eraseA l k) := by
  intro u1 u2 sid h1 h2
  rw [lookupA_eraseA] at h1 h2
  split_ifs at h1 h2
  exact h u1 u2 sid h1 h2

theorem usernameInjective_insertA (l : List (String × SessionId)) (username : String)
    (sid : SessionId) (hni : ∀ u, lookupA l u ≠ some sid)
    (h : usernameInjective l) : usernameInjective (insertA l username sid) := by
  intro u1 u2 s h1 h2
  rw [lookupA_insertA] at h1 h2
  by_cases hc1 : username = u1
  · by_cases hc2 : username = u2
    · rw [← hc1, ← hc2]
    · rw [if_pos hc1] at h1
      rw [if_neg hc2] at h2
      injection h1 with h1
      subst h1
      exact absurd h2 (hni u2)
  · rw [if_neg hc1] at h1
    by_cases hc2 : username = u2
    · rw [if_pos hc2] at h2
      injection h2 with h2
      subst h2
      exact absurd h1 (hni u1)
    · rw [if_neg hc2] at h2
      exact h u1 u2 s h1 h2

theorem goodTrace_injective_aux (ops : List ManagerOp) :
    ∀ m : Manager, usernameInjective m.sessionsByUsername →
      goodTrace m ops = true →
      usernameInjective (ops.foldl managerStep m).sessionsByUsername := by
  induction ops with
  | nil =>
      intro m h _
      simpa using h
  | cons op ops ih =>
      intro m h hg
      rw [List.foldl_cons]
      cases op with
      | addSession ip =>
          simp only [goodTrace, Bool.true_and] at hg
          refine ih _ ?_ hg
          show usernameInjective (m.AddSession ip).2.sessionsByUsername
          rw [AddSession_byUsername]
          exact h
      | removeSession sid =>
          simp only [goodTrace, Bool.true_and] at hg
          refine ih _ ?_ hg
          show usernameInjective (m.RemoveSession sid).sessionsByUsername
          unfold Manager.RemoveSession
          cases lookupA m.sessions sid with
          | none => exact h
          | some d =>
              by_cases hu : d.username ≠ ""
              · simpa [hu] using usernameInjective_eraseA _ d.username h
              · simpa [hu] using h
      | registerUsername sid u =>
          simp only [goodTrace, Bool.and_eq_true] at hg
          obtain ⟨h1, h2⟩ := hg
          refine ih _ ?_ h2
          show usernameInjective (m.RegisterUsername sid u).2.sessionsByUsername
          unfold Manager.RegisterUsername
          cases lookupA m.sessionsByUsername u with
          | some e => exact h
          | none =>
              simp only
              exact usernameInjective_insertA _ u sid (notInImage_spec _ sid h1) h

/-- C2 counterexample: `RegisterUsername` does not clear a session's
previous username binding, so calling it twice for the same session with
two different free names leaves two distinct keys mapping to the same
session — `sessionsByUsername` is not an injection. -/
theorem username_injection_counterexample :
    (lookupA (runManager 3 16 [.addSession "10.0.0.1", .registerUsername 0 "abc",
        .registerUsername 0 "abcd"]).sessionsByUsername "abc" = some 0) ∧
    (lookupA (runManager 3 16 [.addSession "10.0.0.1", .registerUsername 0 "abc",
        .registerUsername 0 "abcd"]).sessionsByUsername "abcd" = some 0) ∧
    ("abc" : String) ≠ "abcd" := by
  refine ⟨rfl, rfl, ?_⟩
  decide

/-- C2 amended: for every interleaving of `AddSession`, `RemoveSession`
and `RegisterUsername` in which `RegisterUsername` is never invoked on a
session already holding an entry in `sessionsByUsername` (in particular,
never a second time for the same session), the map remains an injection:
no two distinct username keys ever map to the same session. -/
theorem username_map_injective (minLen maxLen : Nat) (ops : List ManagerOp)
    (hg : goodTrace (NewManager minLen maxLen) ops = true) :
    usernameInjective (runManager minLen maxLen ops).sessionsByUsername := by
  refine goodTrace_injective_aux ops (NewManager minLen maxLen) ?_ hg
  intro u1 u2 sid h1 _
  simp [NewManager, lookupA] at h1

/-- Witness for C2 (amended) on a concrete good trace with two sessions,
a removal and a re-registration of a freed name. -/
theorem username_map_injective_witness :
    usernameInjective (runManager 3 16 [.addSession "10.0.0.1", .registerUsername 0 "abc",
      .addSession "10.0.0.2", .registerUsername 1 "bob_7", .removeSession 0,
      .addSession "10.0.0.3", .registerUsername 2 "abc"]).sessionsByUsername :=
  username_map_injective 3 16 _ (by decide)

/-- C3 counterexample: `RegisterUsername` performs no validation, so a
name rejected by `ValidateUsername` (here `"ab!"`, which fails the
`^[a-zA-Z0-9_]+$` pattern) is nevertheless published as a key of
`sessionsByUsername`. -/
theorem username_keys_validated_counterexample :
    (lookupA (runManager 3 16 [.addSession "10.0.0.1",
        .registerUsername 0 "ab!"]).sessionsByUsername "ab!" = some 0) ∧
    (runManager 3 16 [.addSession "10.0.0.1",
        .registerUsername 0 "ab!"]).ValidateUsername "ab!" ≠ none := by
  refine ⟨rfl, ?_⟩
  decide

theorem keysValidated_aux (minLen maxLen : Nat) (ops : List ManagerOp) :
    ∀ m : Manager,
      (∀ u sid, lookupA m.sessionsByUsername u = some sid →
        validateUsernameFn minLen maxLen u = none) →
      registersValidated minLen maxLen ops = true →
      ∀ u sid, lookupA (ops.foldl managerStep m).sessionsByUsername u = some sid →
        validateUsernameFn minLen maxLen u = none := by
  induction ops with
  | nil =>
      intro m h _
      simpa using h
  | cons op ops ih =>
      intro m h hv
      rw [List.foldl_cons]
      cases op with
      | addSession ip =>
          rw [registersValidated] at hv
          refine ih _ ?_ hv
          intro u sid hu
          rw [show managerStep m (.addSession ip) = (m.AddSession ip).2 from rfl,
            AddSession_byUsername] at hu
          exact h u sid hu
      | removeSession sid =>
          rw [registersValidated] at hv
          refine ih _ ?_ hv
          intro u s hu
          rw [show managerStep m (.removeSession sid) = m.RemoveSession sid from rfl] at hu
          unfold Manager.RemoveSession at hu
          revert hu
          cases lookupA m.sessions sid with
          | none => exact fun hu => h u s hu
          | some d =>
              by_cases hc : d.username ≠ ""
              · intro hu
                dsimp only at hu
                rw [if_pos hc] at hu
                dsimp only at hu
                rw [lookupA_eraseA] at hu
                split_ifs at hu
                exact h u s hu
              · intro hu
                dsimp only at hu
                rw [if_neg hc] at hu
                exact h u s hu
      | registerUsername sid uname =>
          rw [registersValidated, Bool.and_eq_true] at hv
          obtain ⟨hv1, hv2⟩ := hv
          have hv1' : validateUsernameFn minLen maxLen uname = none := of_decide_eq_true hv1
          refine ih _ ?_ hv2
          intro u s hu
          rw [show managerStep m (.registerUsername sid uname) =
            (m.RegisterUsername sid uname).2 from rfl] at hu
          unfold Manager.RegisterUsername at hu
          revert hu
          cases lookupA m.sessionsByUsername uname with
          | some e => exact fun hu => h u s hu
          | none =>
              simp only
              intro hu
              rw [lookupA_insertA] at hu
              by_cases hc : uname = u
              · rw [← hc]
                exact hv1'
              · rw [if_neg hc] at hu
                exact h u s hu

/-- C3 amended: the manager itself enforces only uncontestedness —
`RegisterUsername` fails without modifying the state when the name is
already held, but performs no validation.  Under the additional
assumption that every `RegisterUsername` call in the interleaving carries
a name accepted by `ValidateUsername` (as the server's auth flow
guarantees by validating first), every key of `sessionsByUsername`
satisfies the length bounds and the `^[a-zA-Z0-9_]+$` pattern. -/
theorem username_keys_validated (minLen maxLen : Nat) (ops : List ManagerOp)
    (hv : registersValidated minLen maxLen ops = true) :
    (∀ u sid, lookupA (runManager minLen maxLen ops).sessionsByUsername u = some sid →
      validateUsernameFn minLen maxLen u = none) ∧
    (∀ (m : Manager) (sid : SessionId) (u : String),
      lookupA m.sessionsByUsername u ≠ none → (m.RegisterUsername sid u).2 = m) := by
  constructor
  · refine keysValidated_aux minLen maxLen ops (NewManager minLen maxLen) ?_ hv
    intro u sid h1
    simp [NewManager, lookupA] at h1
  · intro m sid u hne
    unfold Manager.RegisterUsername
    revert hne
    cases lookupA m.sessionsByUsername u with
    | none => intro hne; exact absurd rfl hne
    | some e => intro _; rfl

/-- Witness for C3 (amended): a concrete validated trace, whose published
key passes validation, and a concrete contested registration that leaves
the manager unchanged. -/
theorem username_keys_validated_witness :
    validateUsernameFn 3 16 "abc" = none ∧
    ((runManager 3 16 [.addSession "10.0.0.1",
        .registerUsername 0 "abc"]).RegisterUsername 1 "abc").2 =
      runManager 3 16 [.addSession "10.0.0.1", .registerUsername 0 "abc"] := by
  constructor
  · exact (username_keys_validated 3 16 [.addSession "10.0.0.1", .registerUsername 0 "abc"]
      (by decide)).1 "abc" 0 rfl
  · exact (username_keys_validated 3 16 [.addSession "10.0.0.1", .registerUsername 0 "abc"]
      (by decide)).2 _ 1 "abc" (by decide)

/-- C6: `AddSession` fails with exactly
`IP address <ip> already has an active connection` iff the IP is already a
key of `sessionsByIP`, leaving the registry unchanged on failure (no
session created or indexed); otherwise it creates a fresh unauthenticated
session, indexes it under the IP, and returns it. -/
theorem addSession_ip_unique (m : Manager) (ip : String) :
    (lookupA m.sessionsByIP ip ≠ none →
      m.AddSession ip =
        (.error ("IP address " ++ ip ++ " already has an active connection"), m)) ∧
    (lookupA m.sessionsByIP ip = none →
      m.AddSession ip =
        (.ok m.nextId,
         { m with sessionsByIP := insertA m.sessionsByIP ip m.nextId,
                  sessions := insertA m.sessions m.nextId ⟨"", "", ip, .unauthenticated⟩,
                  nextId := m.nextId + 1 })) ∧
    ((∃ e, (m.AddSession ip).1 = .error e) ↔ lookupA m.sessionsByIP ip ≠ none) := by
  unfold Manager.AddSession
  cases h : lookupA m.sessionsByIP ip with
  | none =>
      refine ⟨fun hne => absurd rfl hne, fun _ => rfl, ?_⟩
      simp
  | some sid =>
      refine ⟨fun _ => rfl, fun heq => by simp at heq, ?_⟩
      simp

/-- Witness for C6: a fresh manager admits an IP; a second admission of
the same IP fails with the exact error and leaves the state unchanged. -/
theorem addSession_ip_unique_witness :
    ((NewManager 3 16).AddSession "10.0.0.1" =
      (.ok 0, ⟨[("10.0.0.1", 0)], [], [(0, ⟨"", "", "10.0.0.1", .unauthenticated⟩)], 1, 3, 16⟩)) ∧
    (((NewManager 3 16).AddSession "10.0.0.1").2.AddSession "10.0.0.1" =
      (.error "IP address 10.0.0.1 already has an active connection",
       ((NewManager 3 16).AddSession "10.0.0.1").2)) := by
  constructor
  · exact (addSession_ip_unique (NewManager 3 16) "10.0.0.1").2.1 rfl
  · exact (addSession_ip_unique ((NewManager 3 16).AddSession "10.0.0.1").2 "10.0.0.1").1
      (by decide)

theorem unknown_reply_eq (v : String) :
    "ERROR: " ++ ("Unknown command: " ++ v ++ ". Type /help for available commands.") ++ "\n" =
      "ERROR: Unknown command: " ++ v ++ ". Type /help for available commands.\n" := by
  have e1 : ("ERROR: " : String) ++ "Unknown command: " = "ERROR: Unknown command: " := rfl
  have e2 : (". Type /help for available commands." : String) ++ "\n" =
      ". Type /help for available commands.\n" := rfl
  rw [← e1, ← e2]
  simp only [String.append_assoc]

/-- C10: `HandleCommand` lowercases the verb before dispatching, and for
every line starting with `/` whose lowercased first field is not one of
the seven known verbs, the reply is exactly
`ERROR: Unknown command: <verb>. Type /help for available commands.` with
the lowercased token as `<verb>`. -/
theorem handleCommand_unknown_lowercased (command w : String) (rest : List String)
    (_hslash : command.data.head? = some '/')
    (hf : goFields command = w :: rest) :
    (goToLower w = "/help" → HandleCommand command = .help) ∧
    (goToLower w = "/users" → HandleCommand command = .users) ∧
    (goToLower w = "/rooms" → HandleCommand command = .rooms) ∧
    (goToLower w = "/join" → HandleCommand command = .join (w :: rest)) ∧
    (goToLower w = "/leave" → HandleCommand command = .leave) ∧
    (goToLower w = "/msg" → HandleCommand command = .msg (w :: rest)) ∧
    (goToLower w = "/quit" → HandleCommand command = .quit) ∧
    (goToLower w ∉ (["/help", "/users", "/rooms", "/join", "/leave", "/msg",
        "/quit"] : List String) →
      HandleCommand command =
        .unknown ("ERROR: Unknown command: " ++ goToLower w ++
          ". Type /help for available commands.\n")) := by
  refine ⟨?_, ?_, ?_, ?_, ?_, ?_, ?_, ?_⟩
  · intro hv; simp [HandleCommand, hf, hv]
  · intro hv; simp [HandleCommand, hf, hv]
  · intro hv; simp [HandleCommand, hf, hv]
  · intro hv; simp [HandleCommand, hf, hv]
  · intro hv; simp [HandleCommand, hf, hv]
  · intro hv; simp [HandleCommand, hf, hv]
  · intro hv; simp [HandleCommand, hf, hv]
  · intro hv
    simp only [List.mem_cons, List.not_mem_nil, or_false, not_or] at hv
    obtain ⟨h1, h2, h3, h4, h5, h6, h7⟩ := hv
    simp only [HandleCommand, hf, h1, h2, h3, h4, h5, h6, h7, if_false, ite_false,
      NewErrorMessage, Message.Format]
    rw [unknown_reply_eq]

/-- Witness for C10: `/FOO bar` yields the unknown-command error with the
verb lowercased to `/foo`; `/HELP` dispatches to help. -/
theorem handleCommand_unknown_lowercased_witness :
    (HandleCommand "/FOO bar" =
      .unknown "ERROR: Unknown command: /foo. Type /help for available commands.\n") ∧
    (HandleCommand "/HELP" = .help) := by
  constructor
  · have h := (handleCommand_unknown_lowercased "/FOO bar" "/FOO" ["bar"] (by rfl) rfl).2.2.2.2.2.2.2
      (by decide)
    rw [h]
    rfl
  · exact (handleCommand_unknown_lowercased "/HELP" "/HELP" [] (by rfl) rfl).1 rfl

end GoTcpChat
